import Mathlib

/-!
Shallow embedding of `tools/vcd_to_pulseview_csv.py` (VCD → PulseView CSV
converter) and proofs about its behaviour.

Conventions of the embedding:
* Python single-character values (`'0'`, `'1'`, `'x'`, …) are `Char`.
* Python dictionaries are association lists with explicit first-wins
  (`setdefault`), overwrite (`dictInsert`) and append-to-entry
  (`dictAppend`) operations; iteration order is insertion order, exactly
  as in CPython.
* Times in seconds are modelled as exact rationals (`ℚ`); tick counts are
  `Nat`.
* Body lines of the VCD file are modelled after the converter's own
  line dispatch (`RE_TIME` / `RE_SCALAR` / `RE_VECTOR`, everything else
  being ignored) as the inductive `VcdLine`.
* `sys.exit(1)` paths of the conversion are modelled with `Except`.
-/

namespace VcdCsv

/-- From `sanitize_bit` (vcd_to_pulseview_csv.py, lines 146-168):
`0`/`1` pass through, `z`/`Z` resolve to `'1'`, anything else keeps the
previous value when it is `'0'`/`'1'` and otherwise resolves to `'1'`. -/
def sanitize_bit (val prev : Char) : Char :=
  let v := val.toLower
  if v = '0' ∨ v = '1' then v
  else if v = 'z' then '1'
  else if prev = '0' ∨ prev = '1' then prev
  else '1'

/-- Result of `parse_var_line`: width, id, reference name and optional
`[msb:lsb]` range (the range string already split into its two numbers). -/
structure VarDecl where
  width : Nat
  sid : String
  ref : String
  rng : Option (Nat × Nat)
deriving DecidableEq, Repr

/-- A bus declaration as stored in `bus_defs`: `(ref, base, msb, lsb, width)`. -/
structure BusDef where
  ref : String
  base : String
  msb : Nat
  lsb : Nat
  width : Nat
deriving DecidableEq, Repr

/-- Python `dict.setdefault` on an insertion-ordered association list:
first registration wins. -/
def setdefault {α : Type} (d : List (String × α)) (k : String) (v : α) :
    List (String × α) :=
  if (d.lookup k).isSome then d else d ++ [(k, v)]

/-- Python `d[k] = v` on an insertion-ordered association list: an existing
key keeps its position but its value is overwritten. -/
def dictInsert {α : Type} (d : List (String × α)) (k : String) (v : α) :
    List (String × α) :=
  if (d.lookup k).isSome then d.map (fun p => if p.1 = k then (p.1, v) else p)
  else d ++ [(k, v)]

/-- Python `d.setdefault(k, []).append(v)` on an association list of lists. -/
def dictAppend {α : Type} (d : List (String × List α)) (k : String) (v : α) :
    List (String × List α) :=
  if (d.lookup k).isSome then
    d.map (fun p => if p.1 = k then (p.1, p.2 ++ [v]) else p)
  else d ++ [(k, [v])]

/-- Header processing of `vcd_to_csv` (lines 301-325): width-1 declarations
feed `scalar_name2id` via `setdefault` (aliases: first registration wins);
wider declarations become `bus_defs[sid]`, with range defaulting to
`[width-1 : 0]` when absent. -/
def processHeader (decls : List VarDecl) :
    List (String × String) × List (String × BusDef) :=
  decls.foldl
    (fun acc d =>
      if d.width = 1 then (setdefault acc.1 d.ref d.sid, acc.2)
      else
        let ml := match d.rng with
          | some p => p
          | none => (d.width - 1, 0)
        (acc.1, dictInsert acc.2 d.sid ⟨d.ref, d.ref, ml.1, ml.2, d.width⟩))
    ([], [])

/-- The range test of the bus-bit resolution (line 356):
`(msb >= lsb and lsb <= idx <= msb) or (msb < lsb and msb <= idx <= lsb)`. -/
def inRange (msb lsb idx : Nat) : Prop :=
  (lsb ≤ msb ∧ lsb ≤ idx ∧ idx ≤ msb) ∨ (msb < lsb ∧ msb ≤ idx ∧ idx ≤ lsb)

instance (msb lsb idx : Nat) : Decidable (inRange msb lsb idx) := by
  unfold inRange; infer_instance

/-- Bit offset into the MSB-first payload string (lines 358-361). -/
def bitOffset (msb lsb idx : Nat) : Nat :=
  if lsb ≤ msb then msb - idx else idx - msb

/-- The bus-bit resolution loop (lines 352-364): first bus definition whose
base matches and whose range contains the index wins; on success the
synthesized column is associated with `(sid, bit_offset, width)`. -/
def findBusBit : List (String × BusDef) → String → Nat →
    Option (String × Nat × Nat)
  | [], _, _ => none
  | (sid, bd) :: rest, base, idx =>
    if bd.base = base ∧ inRange bd.msb bd.lsb idx then
      some (sid, bitOffset bd.msb bd.lsb idx, bd.width)
    else findBusBit rest base idx

/-- Decimal digits to a number (used by the `RE_BUSBIT` model). -/
def natOfDigits (ds : List Char) : Nat :=
  ds.foldl (fun a c => a * 10 + (c.toNat - 48)) 0

/-- Model of the regex `RE_BUSBIT = ^(.+)\[(\d+)\]$` with a greedy `(.+)`:
the name must end in `]`, preceded by a nonempty digit run, preceded by
`[`, preceded by a nonempty base. -/
def splitBusBit (s : String) : Option (String × Nat) :=
  match s.data.reverse with
  | ']' :: rest =>
    let ds := rest.takeWhile Char.isDigit
    if ds.isEmpty then none
    else
      match rest.drop ds.length with
      | '[' :: base_rev =>
        if base_rev.isEmpty then none
        else some (String.mk base_rev.reverse, natOfDigits ds.reverse)
      | _ => none
  | _ => none

/-- Python `sorted` on strings: lexicographic by code point, modelled with
Mathlib's stable insertion sort. -/
def pySorted (l : List String) : List String :=
  l.insertionSort (· ≤ ·)

/-- The fatal selection-time conditions of `vcd_to_csv`. -/
inductive SelError
  | noSignals
  | missingSignals (names : List String)
  | emptySelection
deriving DecidableEq, Repr

/-- Result of the signal-selection phase: the final ordered column list,
the selected scalar names and `busid_to_bits`. -/
structure Selection where
  signals : List String
  scalar_selected_names : List String
  busid_to_bits : List (String × List (String × Nat × Nat))
deriving DecidableEq, Repr

/-- Python truthiness of the `wanted_signals` argument (line 340:
`if wanted_signals:`): `None` and the empty list are both falsy. -/
def py_truthy (w : Option (List String)) : Bool :=
  match w with
  | none => false
  | some l => !l.isEmpty

/-- The per-name classification loop over `wanted_signals` (lines 341-368),
accumulating `(scalar_selected_names, busid_to_bits, missing)`. -/
def classifyWanted (scalar_name2id : List (String × String))
    (bus_defs : List (String × BusDef)) (names : List String) :
    List String × List (String × List (String × Nat × Nat)) × List String :=
  names.foldl
    (fun acc n =>
      if (scalar_name2id.lookup n).isSome then (acc.1 ++ [n], acc.2.1, acc.2.2)
      else
        match splitBusBit n with
        | some bi =>
          match findBusBit bus_defs bi.1 bi.2 with
          | some (sid, off, w) =>
            (acc.1, dictAppend acc.2.1 sid (n, off, w), acc.2.2)
          | none => (acc.1, acc.2.1, acc.2.2 ++ [n])
        | none => (acc.1, acc.2.1, acc.2.2 ++ [n]))
    ([], [], [])

/-- The signal-selection phase of `vcd_to_csv` (lines 334-403): with a
truthy `wanted_signals` classify each name, fail on missing names unless
`ignore_missing`, keep the requested order restricted to resolved names and
fail if nothing resolved; otherwise select all scalars, lexically sorted. -/
def selectColumns (scalar_name2id : List (String × String))
    (bus_defs : List (String × BusDef)) (wanted : Option (List String))
    (ignore_missing : Bool) : Except SelError Selection :=
  if py_truthy wanted then
    let ws := wanted.getD []
    let c := classifyWanted scalar_name2id bus_defs ws
    if !ignore_missing && !c.2.2.isEmpty then .error (.missingSignals c.2.2)
    else
      let effective := ws.filter (fun n =>
        c.1.contains n || c.2.1.any (fun p => p.2.any (fun q => q.1 = n)))
      if effective.isEmpty then .error .emptySelection
      else .ok ⟨effective, c.1, c.2.1⟩
  else
    let sigs := pySorted (scalar_name2id.map Prod.fst)
    .ok ⟨sigs, sigs, []⟩

/-- `scalar_sid_to_names` construction (lines 406-411). -/
def build_sid_to_names (scalar_name2id : List (String × String))
    (selected : List String) : List (String × List String) :=
  selected.foldl
    (fun acc name =>
      match scalar_name2id.lookup name with
      | none => acc
      | some sid => dictAppend acc sid name)
    []

/-- A body line of the VCD file, after the converter's own line dispatch:
`RE_TIME` time markers, `RE_SCALAR` single-bit changes, `RE_VECTOR` bus
changes; every other line (blank, `$`/`#`-prefixed, unmatched) is inert. -/
inductive VcdLine
  | timeMark (t : Nat)
  | scalarChange (v : Char) (sid : String)
  | vectorChange (bits : String) (sid : String)
  | other
deriving DecidableEq, Repr

/-- Pointwise update of the current-value map (`cur_vals[name] = new`). -/
def updVal (cv : String → Char) (k : String) (v : Char) : String → Char :=
  fun n => if n = k then v else cv n

/-- Scalar-change handling shared by both modes (lines 486-497 and
579-590): every selected alias of the id is sanitized against its previous
value; the boolean records whether any stored value actually changed. -/
def applyScalar (names : List String) (v : Char) (cv : String → Char)
    (changed : Bool) : (String → Char) × Bool :=
  names.foldl
    (fun acc name =>
      let prev := acc.1 name
      let nw := sanitize_bit v prev
      if nw ≠ prev then (updVal acc.1 name nw, true) else acc)
    (cv, changed)

/-- Python `str.rjust`: left-pad to width `w` with `c` (no-op when already
long enough). -/
def rjust (s : List Char) (w : Nat) (c : Char) : List Char :=
  List.replicate (w - s.length) c ++ s

/-- The padding character for a vector payload (lines 506/599):
the payload's own leading character when it is `x`/`X`/`z`/`Z`, else `'0'`. -/
def pad_char (bits : List Char) : Char :=
  match bits with
  | [] => '0'
  | c :: _ => if c.toLower = 'x' ∨ c.toLower = 'z' then c else '0'

/-- Raw bit extraction from a vector payload (lines 506-511/599-604):
right-justify to the bus width, read the offset, and treat an offset at or
beyond the padded payload as the unresolved marker `'x'`. -/
def extract_raw_bit (bits : List Char) (offset width : Nat) : Char :=
  let bp := rjust bits width (pad_char bits)
  if bp.length ≤ offset then 'x' else bp.getD offset 'x'

/-- Vector-change handling shared by both modes (lines 499-517 and
592-611): every selected bit of the bus is extracted and sanitized. -/
def applyVector (bitsl : List (String × Nat × Nat)) (bits : List Char)
    (cv : String → Char) (changed : Bool) : (String → Char) × Bool :=
  bitsl.foldl
    (fun acc e =>
      let raw := extract_raw_bit bits e.2.1 e.2.2
      let prev := acc.1 e.1
      let nw := sanitize_bit raw prev
      if nw ≠ prev then (updVal acc.1 e.1 nw, true) else acc)
    (cv, changed)

/-- `tmin is not None and t < tmin`. -/
def belowMin (tmin : Option ℚ) (t : ℚ) : Bool :=
  match tmin with
  | some m => decide (t < m)
  | none => false

/-- `tmax is not None and t > tmax`. -/
def aboveMax (tmax : Option ℚ) (t : ℚ) : Bool :=
  match tmax with
  | some m => decide (m < t)
  | none => false

/-- Configuration of the event-mode emission engine. -/
structure EvConfig where
  signals : List String
  sid_to_names : List (String × List String)
  busid_to_bits : List (String × List (String × Nat × Nat))
  ts_sec : ℚ
  tmin : Option ℚ
  tmax : Option ℚ

/-- Mutable state of the event-mode emission engine; `rows` collects the
emitted `(time, values)` rows in order. -/
structure EvState where
  cur_vals : String → Char
  cur_time_ticks : Option Nat
  changed : Bool
  rows : List (ℚ × List Char)
  stop : Bool

/-- The initial state: every column idle at `'1'` (line 414). -/
def initEvState : EvState :=
  ⟨fun _ => '1', none, false, [], false⟩

/-- `flush_if_needed` (lines 534-548): nothing to do without a current time
or without changes; a row strictly below `tmin` is dropped (state still
reset); a row strictly above `tmax` is not written and signals termination;
otherwise the row is written. -/
def flush_if_needed (cfg : EvConfig) (st : EvState) : EvState × Bool :=
  match st.cur_time_ticks with
  | none => (st, false)
  | some ticks =>
    if st.changed = false then (st, false)
    else
      let t_sec : ℚ := ticks * cfg.ts_sec
      if belowMin cfg.tmin t_sec then ({st with changed := false}, false)
      else if aboveMax cfg.tmax t_sec then (st, true)
      else
        ({st with
            rows := st.rows ++ [(t_sec, cfg.signals.map st.cur_vals)],
            changed := false},
          false)

/-- One body line in event mode (lines 553-611). -/
def evStep (cfg : EvConfig) (st : EvState) (l : VcdLine) : EvState :=
  if st.stop then st
  else
    match l with
    | .timeMark t =>
      let fr := flush_if_needed cfg st
      if fr.2 then {fr.1 with stop := true}
      else {fr.1 with cur_time_ticks := some t}
    | .scalarChange v sid =>
      match cfg.sid_to_names.lookup sid with
      | none => st
      | some names =>
        let r := applyScalar names v st.cur_vals st.changed
        {st with cur_vals := r.1, changed := r.2}
    | .vectorChange bits sid =>
      match cfg.busid_to_bits.lookup sid with
      | none => st
      | some bl =>
        let r := applyVector bl bits.data st.cur_vals st.changed
        {st with cur_vals := r.1, changed := r.2}
    | .other => st

/-- Event mode over a whole body (lines 550-614), including the final
flush, which is skipped after an upper-bound termination. -/
def runEvents (cfg : EvConfig) (body : List VcdLine) : EvState :=
  let fin := body.foldl (evStep cfg) initEvState
  if fin.stop then fin else (flush_if_needed cfg fin).1

/-- `tmax is None or t <= tmax` (loop guard of `emit_uniform_between`). -/
def passTmax (tmax : Option ℚ) (t : ℚ) : Bool :=
  match tmax with
  | none => true
  | some m => decide (t ≤ m)

/-- The `while` loop of `emit_uniform_between` (lines 447-452): emit a row
at every grid point strictly before `t_to` and not beyond `tmax`, stepping
by `step`; returns the rows and the final `next_sample_time`. -/
def emitLoop (step : ℚ) (hstep : 0 < step) (tmax : Option ℚ)
    (sigvals : List Char) (t_to : ℚ) (next : ℚ) :
    List (ℚ × List Char) × ℚ :=
  if h : next < t_to ∧ passTmax tmax next = true then
    let r := emitLoop step hstep tmax sigvals t_to (next + step)
    ((next, sigvals) :: r.1, r.2)
  else ([], next)
termination_by (⌈(t_to - next) / step⌉).toNat
decreasing_by
  have h1 : (0 : ℚ) < t_to - next := by linarith [h.1]
  have h2 : (0 : ℚ) < (t_to - next) / step := div_pos h1 hstep
  have h3 : (1 : ℤ) ≤ ⌈(t_to - next) / step⌉ := by
    exact_mod_cast Int.ceil_pos.mpr h2
  have h4 : (t_to - (next + step)) / step = (t_to - next) / step - 1 := by
    field_simp
    ring
  rw [h4]
  rw [Int.ceil_sub_one]
  omega

/-- Grid anchoring (lines 443-446): the later of the interval start and the
lower bound. -/
def anchorOf (tmin : Option ℚ) (t_from : ℚ) : ℚ :=
  match tmin with
  | some m => if t_from < m then m else t_from
  | none => t_from

/-- Configuration of the uniform-grid engine; the strictly positive step is
required for the sampling loop to terminate (a non-positive step loops
forever in the source as well). -/
structure UniConfig where
  signals : List String
  sid_to_names : List (String × List String)
  busid_to_bits : List (String × List (String × Nat × Nat))
  ts_sec : ℚ
  tmin : Option ℚ
  tmax : Option ℚ
  step : ℚ
  hstep : 0 < step

/-- `emit_uniform_between` (lines 437-452): bail out beyond `tmax`, anchor
the grid on first use, then run the sampling loop. -/
def emit_uniform_between (cfg : UniConfig) (sigvals : List Char)
    (next0 : Option ℚ) (t_from t_to : ℚ) :
    List (ℚ × List Char) × Option ℚ :=
  if aboveMax cfg.tmax t_from then ([], next0)
  else
    let next := match next0 with
      | none => anchorOf cfg.tmin t_from
      | some n => n
    let r := emitLoop cfg.step cfg.hstep cfg.tmax sigvals t_to next
    (r.1, some r.2)

/-- Mutable state of the uniform-grid engine.  The source keeps
`cur_time_ticks` and `last_time_sec` in lockstep (both set at every time
marker, both only `None`-tested otherwise), so a single optional
last-marker time in seconds suffices. -/
structure UniState where
  cur_vals : String → Char
  last_time_sec : Option ℚ
  next_sample : Option ℚ
  rows : List (ℚ × List Char)

/-- The initial uniform-mode state. -/
def initUniState : UniState :=
  ⟨fun _ => '1', none, none, []⟩

/-- One body line in uniform-grid mode (lines 454-517): a time marker first
emits the samples of the elapsed interval, value changes only update state
(no pending-change flag in this mode). -/
def uniStep (cfg : UniConfig) (st : UniState) (l : VcdLine) : UniState :=
  match l with
  | .timeMark t =>
    let new_sec : ℚ := t * cfg.ts_sec
    match st.last_time_sec with
    | none => {st with last_time_sec := some new_sec}
    | some last =>
      let sv := cfg.signals.map st.cur_vals
      let r := emit_uniform_between cfg sv st.next_sample last new_sec
      {st with rows := st.rows ++ r.1, next_sample := r.2,
               last_time_sec := some new_sec}
  | .scalarChange v sid =>
    match cfg.sid_to_names.lookup sid with
    | none => st
    | some names =>
      {st with cur_vals := (applyScalar names v st.cur_vals false).1}
  | .vectorChange bits sid =>
    match cfg.busid_to_bits.lookup sid with
    | none => st
    | some bl =>
      {st with cur_vals := (applyVector bl bits.data st.cur_vals false).1}
  | .other => st

/-- Uniform-grid mode over a whole body (lines 454-525), including the
final emission over `[last, max last tmax)` (lines 519-523). -/
def runUniform (cfg : UniConfig) (body : List VcdLine) : UniState :=
  let fin := body.foldl (uniStep cfg) initUniState
  match fin.last_time_sec with
  | none => fin
  | some last =>
    let end_sec := match cfg.tmax with
      | some m => if last < m then m else last
      | none => last
    let sv := cfg.signals.map fin.cur_vals
    let r := emit_uniform_between cfg sv fin.next_sample last end_sec
    {fin with rows := fin.rows ++ r.1, next_sample := r.2}

/-- The full event-mode conversion (`vcd_to_csv` with `uniform_step=None`)
on a pre-parsed header and body: header processing, the no-signals check,
signal selection, then the event-mode pass.  The result is the column list
(the CSV header after the time column) and the emitted rows. -/
def vcd_to_csv_event (decls : List VarDecl) (body : List VcdLine)
    (wanted : Option (List String)) (tmin tmax : Option ℚ)
    (ignore_missing : Bool) (ts_sec : ℚ) :
    Except SelError (List String × List (ℚ × List Char)) :=
  let hdr := processHeader decls
  if hdr.1.isEmpty && hdr.2.isEmpty then .error .noSignals
  else
    match selectColumns hdr.1 hdr.2 wanted ignore_missing with
    | .error e => .error e
    | .ok sel =>
      let cfg : EvConfig :=
        ⟨sel.signals, build_sid_to_names hdr.1 sel.scalar_selected_names,
          sel.busid_to_bits, ts_sec, tmin, tmax⟩
      .ok (sel.signals, (runEvents cfg body).rows)

/-- The full uniform-grid conversion (`vcd_to_csv` with a positive
`uniform_step`). -/
def vcd_to_csv_uniform (decls : List VarDecl) (body : List VcdLine)
    (wanted : Option (List String)) (tmin tmax : Option ℚ)
    (ignore_missing : Bool) (ts_sec : ℚ) (step : {q : ℚ // 0 < q}) :
    Except SelError (List String × List (ℚ × List Char)) :=
  let hdr := processHeader decls
  if hdr.1.isEmpty && hdr.2.isEmpty then .error .noSignals
  else
    match selectColumns hdr.1 hdr.2 wanted ignore_missing with
    | .error e => .error e
    | .ok sel =>
      let cfg : UniConfig :=
        ⟨sel.signals, build_sid_to_names hdr.1 sel.scalar_selected_names,
          sel.busid_to_bits, ts_sec, tmin, tmax, step.1, step.2⟩
      .ok (sel.signals, (runUniform cfg body).rows)

/-- A clean two-state bit. -/
def isBit (c : Char) : Prop :=
  c = '0' ∨ c = '1'

/-- Tick count of the first time marker of a body, if any. -/
def firstMark (body : List VcdLine) : Option Nat :=
  body.findSome? (fun l =>
    match l with
    | .timeMark t => some t
    | _ => none)

/-- Header of the concrete scenario: scalar `clk` (id `!`) and bus
`data[1:0]` (id `"`, width 2). -/
def c3Decls : List VarDecl :=
  [⟨1, "!", "clk", none⟩, ⟨2, "\"", "data", some (1, 0)⟩]

/-- Body of the concrete scenario: `#0`, `1!`, `b10 "`, `#5`, `0!`. -/
def c3Body : List VcdLine :=
  [.timeMark 0, .scalarChange '1' "!", .vectorChange "10" "\"",
   .timeMark 5, .scalarChange '0' "!"]

/-- A one-scalar uniform-grid configuration with `ts_sec = step = S` and no
time bounds, for the `[0, 3S)` grid scenario. -/
def c4Cfg (S : ℚ) (h : 0 < S) : UniConfig :=
  ⟨["clk"], [("!", ["clk"])], [], S, none, none, S, h⟩

/-- Two time markers spanning `[0, 3S)` (at `ts_sec = S`), no value
changes. -/
def c4Body : List VcdLine :=
  [.timeMark 0, .timeMark 3]

/-- A one-scalar event-mode configuration with `ts_sec = 1`, no lower
bound, upper bound 3. -/
def c5Cfg : EvConfig :=
  ⟨["clk"], [("!", ["clk"])], [], 1, none, some 3⟩

/-- Events at ticks 2 and 5: the tick-5 row would exceed `tmax = 3`. -/
def c5Body : List VcdLine :=
  [.timeMark 2, .scalarChange '0' "!", .timeMark 5, .scalarChange '1' "!",
   .timeMark 7]

/-- A one-scalar event-mode configuration with `ts_sec = 1`, lower bound 2,
no upper bound. -/
def c6Cfg : EvConfig :=
  ⟨["clk"], [("!", ["clk"])], [], 1, some 2, none⟩

/-- A changed state at tick 0 (time 0 < tmin = 2) for the silent-drop
flush. -/
def c6St : EvState :=
  ⟨fun _ => '0', some 0, true, [], false⟩

/-- A stopped state, for the termination-freezes-processing instance. -/
def c5StoppedSt : EvState :=
  ⟨fun _ => '1', some 4, true, [], true⟩

/-- Header with two scalars declared in the order `b`, `a`: declaration
order and lexical order disagree. -/
def c8Decls : List VarDecl :=
  [⟨1, "!", "b", none⟩, ⟨1, "\"", "a", none⟩]

/-- Proof-side invariant for the uniform-grid engine once a time marker has
been seen: either the grid is not yet anchored (no samples emitted, and the
pending interval start would anchor it at `A`), or it is anchored and both
the next sample time and every emitted row time sit on the grid
`A + k * step`. -/
def uniPhase (cfg : UniConfig) (A : ℚ) (st : UniState) : Prop :=
  (∃ l, st.last_time_sec = some l ∧ anchorOf cfg.tmin l = A ∧
    st.next_sample = none ∧ st.rows = []) ∨
  ((∃ k : ℕ, st.next_sample = some (A + k * cfg.step)) ∧
    ∀ r ∈ st.rows, ∃ j : ℕ, r.1 = A + j * cfg.step)

/-- Proof-side invariant for the uniform-grid engine under arbitrary
bounds: either no sample was ever scheduled (and nothing was emitted), or
there is a single anchor on whose grid the next sample time and every
emitted row time sit. -/
def uniAnchored (cfg : UniConfig) (st : UniState) : Prop :=
  (st.next_sample = none ∧ st.rows = []) ∨
  ∃ A : ℚ, (∃ k : ℕ, st.next_sample = some (A + k * cfg.step)) ∧
    ∀ r ∈ st.rows, ∃ j : ℕ, r.1 = A + j * cfg.step

lemma sanitize_bit_zero (prev : Char) : sanitize_bit '0' prev = '0' := rfl

lemma sanitize_bit_one (prev : Char) : sanitize_bit '1' prev = '1' := rfl

lemma isBit_sanitize_bit (v p : Char) : isBit (sanitize_bit v p) := by
  unfold sanitize_bit isBit
  by_cases h1 : v.toLower = '0' ∨ v.toLower = '1'
  · simp [h1]
  · by_cases h2 : v.toLower = 'z'
    · simp [h1, h2]
    · by_cases h3 : p = '0' ∨ p = '1'
      · simp [h1, h2, h3]
      · simp [h1, h2, h3]

lemma isBit_updVal {cv : String → Char} (h : ∀ n, isBit (cv n)) {v : Char}
    (hv : isBit v) (k : String) : ∀ n, isBit (updVal cv k v n) := by
  intro n
  unfold updVal
  split
  · exact hv
  · exact h n

lemma isBit_applyScalar (names : List String) (v : Char) :
    ∀ (cv : String → Char) (ch : Bool), (∀ n, isBit (cv n)) →
      ∀ n, isBit ((applyScalar names v cv ch).1 n) := by
  induction names with
  | nil => intro cv ch h n; exact h n
  | cons name rest ih =>
    intro cv ch h n
    unfold applyScalar at ih ⊢
    simp only [List.foldl_cons]
    split
    · exact ih _ _ (isBit_updVal h (isBit_sanitize_bit _ _) name) n
    · exact ih _ _ h n

lemma isBit_applyVector (bitsl : List (String × Nat × Nat)) (bits : List Char) :
    ∀ (cv : String → Char) (ch : Bool), (∀ n, isBit (cv n)) →
      ∀ n, isBit ((applyVector bitsl bits cv ch).1 n) := by
  induction bitsl with
  | nil => intro cv ch h n; exact h n
  | cons e rest ih =>
    intro cv ch h n
    unfold applyVector at ih ⊢
    simp only [List.foldl_cons]
    split
    · exact ih _ _ (isBit_updVal h (isBit_sanitize_bit _ _) e.1) n
    · exact ih _ _ h n

lemma flush_cur_vals (cfg : EvConfig) (st : EvState) :
    (flush_if_needed cfg st).1.cur_vals = st.cur_vals := by
  unfold flush_if_needed
  rcases st.cur_time_ticks with _ | tk <;> simp
  split
  · rfl
  · split
    · rfl
    · split <;> rfl

lemma flush_stop (cfg : EvConfig) (st : EvState) :
    (flush_if_needed cfg st).1.stop = st.stop := by
  unfold flush_if_needed
  rcases st.cur_time_ticks with _ | tk <;> simp
  split
  · rfl
  · split
    · rfl
    · split <;> rfl

lemma runEvents_cur_vals (cfg : EvConfig) (body : List VcdLine) :
    (runEvents cfg body).cur_vals =
      (body.foldl (evStep cfg) initEvState).cur_vals := by
  unfold runEvents
  by_cases h : (body.foldl (evStep cfg) initEvState).stop
  · simp [h]
  · simp [h, flush_cur_vals]

lemma runUniform_cur_vals (cfg : UniConfig) (body : List VcdLine) :
    (runUniform cfg body).cur_vals =
      (body.foldl (uniStep cfg) initUniState).cur_vals := by
  unfold runUniform
  rcases h : (body.foldl (uniStep cfg) initUniState).last_time_sec with _ | l <;>
    simp [h]

lemma isBit_evStep (cfg : EvConfig) (st : EvState) (l : VcdLine)
    (h : ∀ n, isBit (st.cur_vals n)) : ∀ n, isBit ((evStep cfg st l).cur_vals n) := by
  unfold evStep
  split
  · exact h
  · match l with
    | .timeMark t =>
      intro n
      simp only []
      split <;> simpa [flush_cur_vals] using h n
    | .scalarChange v sid =>
      simp only []
      split
      · exact h
      · exact isBit_applyScalar _ _ _ _ h
    | .vectorChange bits sid =>
      simp only []
      split
      · exact h
      · exact isBit_applyVector _ _ _ _ h
    | .other => exact h

lemma isBit_foldl_evStep (cfg : EvConfig) (body : List VcdLine) :
    ∀ (st : EvState), (∀ n, isBit (st.cur_vals n)) →
      ∀ n, isBit ((body.foldl (evStep cfg) st).cur_vals n) := by
  induction body with
  | nil => intro st h; exact h
  | cons l rest ih =>
    intro st h
    exact ih _ (isBit_evStep cfg st l h)

lemma isBit_uniStep (cfg : UniConfig) (st : UniState) (l : VcdLine)
    (h : ∀ n, isBit (st.cur_vals n)) : ∀ n, isBit ((uniStep cfg st l).cur_vals n) := by
  unfold uniStep
  match l with
  | .timeMark t =>
    simp only []
    split <;> exact h
  | .scalarChange v sid =>
    simp only []
    split
    · exact h
    · exact isBit_applyScalar _ _ _ _ h
  | .vectorChange bits sid =>
    simp only []
    split
    · exact h
    · exact isBit_applyVector _ _ _ _ h
  | .other => exact h

lemma isBit_foldl_uniStep (cfg : UniConfig) (body : List VcdLine) :
    ∀ (st : UniState), (∀ n, isBit (st.cur_vals n)) →
      ∀ n, isBit ((body.foldl (uniStep cfg) st).cur_vals n) := by
  induction body with
  | nil => intro st h; exact h
  | cons l rest ih =>
    intro st h
    exact ih _ (isBit_uniStep cfg st l h)

/-- C1: the single-bit sanitizer returns `'0'`/`'1'` unchanged, resolves
the high-impedance marker `z`/`Z` to `'1'` regardless of the previous
value, and resolves the unresolved marker `x`/`X` to the previous value
when that value is `'0'` or `'1'`, else to `'1'`. -/
theorem claim1_sanitize_bit (prev : Char) :
    sanitize_bit '0' prev = '0' ∧ sanitize_bit '1' prev = '1' ∧
    sanitize_bit 'z' prev = '1' ∧ sanitize_bit 'Z' prev = '1' ∧
    sanitize_bit 'x' prev = (if prev = '0' ∨ prev = '1' then prev else '1') ∧
    sanitize_bit 'X' prev = (if prev = '0' ∨ prev = '1' then prev else '1') :=
  ⟨rfl, rfl, rfl, rfl, rfl, rfl⟩

/-- C2: a bus-bit selection `base[idx]` that resolves does so against a
declared bus whose base matches and whose range contains `idx`, and the
computed payload offset is the distance from the declared most-significant
bit position to `idx`: `msb - idx` for a descending range, `idx - msb` for
an ascending one. -/
theorem claim2_bus_bit_offset (defs : List (String × BusDef)) (base : String)
    (idx : Nat) (sid : String) (off w : Nat)
    (h : findBusBit defs base idx = some (sid, off, w)) :
    ∃ bd : BusDef, (sid, bd) ∈ defs ∧ bd.base = base ∧
      inRange bd.msb bd.lsb idx ∧
      off = (if bd.lsb ≤ bd.msb then bd.msb - idx else idx - bd.msb) ∧
      off = max bd.msb idx - min bd.msb idx ∧ w = bd.width := by
  induction defs with
  | nil => simp [findBusBit] at h
  | cons p rest ih =>
    obtain ⟨s, bd⟩ := p
    unfold findBusBit at h
    split at h
    · rename_i hc
      obtain ⟨hb, hr⟩ := hc
      simp only [Option.some.injEq, Prod.mk.injEq] at h
      obtain ⟨h1, h2, h3⟩ := h
      refine ⟨bd, ?_, hb, hr, ?_, ?_, h3.symm⟩
      · rw [← h1]
        exact List.mem_cons_self ..
      · rw [← h2]
        rfl
      · rw [← h2]
        unfold bitOffset
        rcases hr with ⟨hd, hi1, hi2⟩ | ⟨ha, hi1, hi2⟩
        · rw [if_pos hd, max_eq_left hi2, min_eq_right hi2]
        · rw [if_neg (by omega), max_eq_right hi1, min_eq_left hi1]
    · obtain ⟨bd', hmem, rest'⟩ := ih h
      exact ⟨bd', List.mem_cons_of_mem _ hmem, rest'⟩

/-- Witness for C2: range `[7:0]` with selection `data[3]` resolves at
offset `7 - 3 = 4` from the most-significant end. -/
theorem claim2_witness :
    ∃ bd : BusDef,
      ("i", bd) ∈ [("i", (⟨"data", "data", 7, 0, 8⟩ : BusDef))] ∧
      bd.base = "data" ∧ inRange bd.msb bd.lsb 3 ∧
      4 = (if bd.lsb ≤ bd.msb then bd.msb - 3 else 3 - bd.msb) ∧
      4 = max bd.msb 3 - min bd.msb 3 ∧ 8 = bd.width :=
  claim2_bus_bit_offset [("i", ⟨"data", "data", 7, 0, 8⟩)] "data" 3 "i" 4 8 rfl

/-- C3 fails on the code: in the concrete scenario (scalar `clk` id `!`,
bus `data[1:0]` id `"`; `1!` and `b10 "` at tick 0, `0!` at tick 5; event
mode, default selection, no bounds, scale 1) the converter emits exactly
ONE row, not two: columns start at the idle value `'1'`, so the `1!` event
at tick 0 produces no change and no row is flushed for tick 0. -/
theorem claim3_counterexample :
    vcd_to_csv_event c3Decls c3Body none none none false 1 =
      .ok (["clk"], [(5, ['0'])]) ∧
    ([((5 : ℚ), ['0'])] : List (ℚ × List Char)).length ≠ 2 := by
  constructor
  · norm_num +decide [vcd_to_csv_event, c3Decls, c3Body, processHeader,
      setdefault, dictInsert, selectColumns, py_truthy, pySorted,
      build_sid_to_names, dictAppend, runEvents, evStep, flush_if_needed,
      initEvState, applyScalar, sanitize_bit_zero, sanitize_bit_one, updVal,
      belowMin, aboveMax, List.lookup, List.insertionSort]
  · decide

/-- C3 amended: for the concrete scenario the output after the header line
is exactly one row, at time `5 * scale` with value `0`; no row is emitted
at time 0 because the resolved value of `clk` equals the initialized idle
value `'1'`, so no change is recorded at tick 0, and the `data` bits are
excluded because the default selection is scalar-only. -/
theorem claim3_one_row (ts : ℚ) :
    vcd_to_csv_event c3Decls c3Body none none none false ts =
      .ok (["clk"], [(((5 : ℕ) : ℚ) * ts, ['0'])]) := by
  norm_num +decide [vcd_to_csv_event, c3Decls, c3Body, processHeader,
    setdefault, dictInsert, selectColumns, py_truthy, pySorted,
    build_sid_to_names, dictAppend, runEvents, evStep, flush_if_needed,
    initEvState, applyScalar, sanitize_bit_zero, sanitize_bit_one, updVal,
    belowMin, aboveMax, List.lookup, List.insertionSort]

/-- C7: vector payloads are right-justified before bit extraction.  The
padded payload has length `max width len`, ends with the payload itself,
and is left-filled with the payload's own leading character when that
character is `x`/`X`/`z`/`Z` and with `'0'` otherwise; an offset at or
beyond the padded payload reads as the unresolved marker `'x'`, any other
offset reads the padded payload. -/
theorem claim7_vector_alignment (bits : List Char) (offset width : Nat) :
    (∀ c cs, bits = c :: cs →
      pad_char bits = (if c.toLower = 'x' ∨ c.toLower = 'z' then c else '0')) ∧
    (rjust bits width (pad_char bits)).length = max width bits.length ∧
    (rjust bits width (pad_char bits)).drop
        ((rjust bits width (pad_char bits)).length - bits.length) = bits ∧
    (∀ c ∈ (rjust bits width (pad_char bits)).take (width - bits.length),
      c = pad_char bits) ∧
    (max width bits.length ≤ offset → extract_raw_bit bits offset width = 'x') ∧
    (offset < max width bits.length →
      extract_raw_bit bits offset width =
        (rjust bits width (pad_char bits)).getD offset 'x') := by
  have hlen : (rjust bits width (pad_char bits)).length = max width bits.length := by
    simp [rjust]
    omega
  refine ⟨?_, hlen, ?_, ?_, ?_, ?_⟩
  · intro c cs hb
    subst hb
    rfl
  · rw [hlen]
    have : max width bits.length - bits.length =
        (List.replicate (width - bits.length) (pad_char bits)).length := by
      simp
      omega
    rw [this]
    exact List.drop_left _ _
  · intro c hc
    have ht : (rjust bits width (pad_char bits)).take (width - bits.length) =
        List.replicate (width - bits.length) (pad_char bits) := by
      unfold rjust
      simp
    rw [ht] at hc
    exact List.eq_of_mem_replicate hc
  · intro hge
    unfold extract_raw_bit
    rw [if_pos (by rw [hlen]; exact hge)]
  · intro hlt
    unfold extract_raw_bit
    rw [if_neg (by rw [hlen]; omega)]

/-- Witness for C7: a payload led by `'z'` pads with `'z'`. -/
theorem claim7_witness :
    pad_char ['z', '0'] =
      (if ('z').toLower = 'x' ∨ ('z').toLower = 'z' then 'z' else '0') :=
  (claim7_vector_alignment ['z', '0'] 0 4).1 'z' ['0'] rfl

/-- C8 fails on the code: with scalars declared in the order `b`, `a`, the
default selection is the lexically sorted `["a", "b"]`, not the
declaration-order `["b", "a"]` (the source applies `sorted(...)` to the
scalar names). -/
theorem claim8_counterexample :
    selectColumns (processHeader c8Decls).1 (processHeader c8Decls).2
        none false = .ok ⟨["a", "b"], ["a", "b"], []⟩ ∧
    (["a", "b"] : List String) ≠ ["b", "a"] := by
  constructor
  · have hba : ¬ (("b" : String) ≤ "a") := by
      rw [String.le_iff_toList_le]
      decide
    norm_num +decide [selectColumns, processHeader, c8Decls, setdefault,
      dictInsert, py_truthy, pySorted, List.insertionSort, List.orderedInsert,
      hba]
  · decide

/-- C8 amended: when neither a viewer-configuration file nor an explicit
signal list is given, the output column list consists of exactly the
declared single-bit signal names (one per distinct name), lexically
sorted — not in declaration order. -/
theorem claim8_default_sorted (scalar_name2id : List (String × String))
    (bus_defs : List (String × BusDef)) (ignore_missing : Bool) :
    ∃ sel : Selection,
      selectColumns scalar_name2id bus_defs none ignore_missing = .ok sel ∧
      sel.signals.Perm (scalar_name2id.map Prod.fst) ∧
      List.Sorted (· ≤ ·) sel.signals ∧
      sel.scalar_selected_names = sel.signals := by
  refine ⟨⟨pySorted (scalar_name2id.map Prod.fst),
    pySorted (scalar_name2id.map Prod.fst), []⟩, rfl, ?_, ?_, rfl⟩
  · exact List.perm_insertionSort _ _
  · exact List.sorted_insertionSort _ _

/-- C9: after initialization and after every processed line, in both
emission modes, every column's stored value is a resolved bit `'0'` or
`'1'` (the body is arbitrary, so this covers every intermediate point of
the conversion). -/
theorem claim9_values_are_bits (ecfg : EvConfig) (ucfg : UniConfig)
    (body : List VcdLine) (n : String) :
    isBit (initEvState.cur_vals n) ∧ isBit (initUniState.cur_vals n) ∧
    isBit ((body.foldl (evStep ecfg) initEvState).cur_vals n) ∧
    isBit ((runEvents ecfg body).cur_vals n) ∧
    isBit ((body.foldl (uniStep ucfg) initUniState).cur_vals n) ∧
    isBit ((runUniform ucfg body).cur_vals n) := by
  have hinit : ∀ m, isBit (initEvState.cur_vals m) := fun _ => Or.inr rfl
  have huinit : ∀ m, isBit (initUniState.cur_vals m) := fun _ => Or.inr rfl
  have hev := isBit_foldl_evStep ecfg body initEvState hinit
  have huni := isBit_foldl_uniStep ucfg body initUniState huinit
  refine ⟨hinit n, huinit n, hev n, ?_, huni n, ?_⟩
  · rw [runEvents_cur_vals]
    exact hev n
  · rw [runUniform_cur_vals]
    exact huni n

lemma flush_rows_spec (cfg : EvConfig) (st : EvState) :
    (flush_if_needed cfg st).1.rows = st.rows ∨
    ∃ tk, st.cur_time_ticks = some tk ∧ st.changed = true ∧
      belowMin cfg.tmin ((tk : ℚ) * cfg.ts_sec) = false ∧
      aboveMax cfg.tmax ((tk : ℚ) * cfg.ts_sec) = false ∧
      (flush_if_needed cfg st).1.rows =
        st.rows ++ [((tk : ℚ) * cfg.ts_sec, cfg.signals.map st.cur_vals)] := by
  rcases h : st.cur_time_ticks with _ | tk
  · left
    simp [flush_if_needed, h]
  · by_cases hch : st.changed = false
    · left
      simp [flush_if_needed, h, hch]
    · by_cases hbm : belowMin cfg.tmin ((tk : ℚ) * cfg.ts_sec) = true
      · left
        simp [flush_if_needed, h, hch, hbm]
      · by_cases ham : aboveMax cfg.tmax ((tk : ℚ) * cfg.ts_sec) = true
        · left
          simp [flush_if_needed, h, hch, hbm, ham]
        · right
          refine ⟨tk, by simp [h], by simpa using hch, by simpa using hbm,
            by simpa using ham, ?_⟩
          simp [flush_if_needed, h, hch, hbm, ham]

lemma evStep_rows_bound (cfg : EvConfig) (m : ℚ) (hm : cfg.tmax = some m)
    (st : EvState) (l : VcdLine) (h : ∀ r ∈ st.rows, r.1 ≤ m) :
    ∀ r ∈ (evStep cfg st l).rows, r.1 ≤ m := by
  unfold evStep
  split
  · exact h
  · match l with
    | .timeMark t =>
      simp only []
      rcases flush_rows_spec cfg st with hfl | ⟨tk, _, _, _, ham, hfl⟩
      · split <;> simpa [hfl] using h
      · have hle : (tk : ℚ) * cfg.ts_sec ≤ m := by
          rw [hm] at ham
          simpa [aboveMax] using ham
        split <;>
        · simp only [hfl]
          intro r hr
          rcases List.mem_append.mp hr with h1 | h2
          · exact h r h1
          · simp only [List.mem_singleton] at h2
            rw [h2]
            exact hle
    | .scalarChange v sid =>
      simp only []
      split
      · exact h
      · exact h
    | .vectorChange bits sid =>
      simp only []
      split
      · exact h
      · exact h
    | .other => exact h

lemma foldl_rows_bound (cfg : EvConfig) (m : ℚ) (hm : cfg.tmax = some m)
    (body : List VcdLine) : ∀ (st : EvState), (∀ r ∈ st.rows, r.1 ≤ m) →
      ∀ r ∈ (body.foldl (evStep cfg) st).rows, r.1 ≤ m := by
  induction body with
  | nil => intro st h; exact h
  | cons l rest ih =>
    intro st h
    exact ih _ (evStep_rows_bound cfg m hm st l h)

/-- C5: with an upper bound `tmax` set, every emitted event-mode row has
time at most `tmax` (the first would-be row beyond the bound is never
written), and once the engine has stopped, every further line leaves the
state untouched — all later events are discarded. -/
theorem claim5_tmax_bound (cfg : EvConfig) (body : List VcdLine) (m : ℚ)
    (hm : cfg.tmax = some m) :
    (∀ r ∈ (runEvents cfg body).rows, r.1 ≤ m) ∧
    (∀ (st : EvState) (l : VcdLine), st.stop = true → evStep cfg st l = st) := by
  constructor
  · have hfold := foldl_rows_bound cfg m hm body initEvState (by simp [initEvState])
    unfold runEvents
    by_cases hs : (body.foldl (evStep cfg) initEvState).stop
    · simpa [hs] using hfold
    · simp only [hs, if_neg, Bool.false_eq_true, if_false]
      rcases flush_rows_spec cfg (body.foldl (evStep cfg) initEvState) with
        hfl | ⟨tk, _, _, _, ham, hfl⟩
      · simpa [hfl] using hfold
      · have hle : (tk : ℚ) * cfg.ts_sec ≤ m := by
          rw [hm] at ham
          simpa [aboveMax] using ham
        rw [hfl]
        intro r hr
        rcases List.mem_append.mp hr with h1 | h2
        · exact hfold r h1
        · simp only [List.mem_singleton] at h2
          rw [h2]
          exact hle
  · intro st l hs
    simp [evStep, hs]

/-- Witness for C5: a stopped engine ignores any further line. -/
theorem claim5_witness : evStep c5Cfg c5StoppedSt .other = c5StoppedSt :=
  (claim5_tmax_bound c5Cfg c5Body 3 rfl).2 c5StoppedSt .other rfl

lemma evStep_tmin_indep (cfgA cfgB : EvConfig)
    (hsid : cfgA.sid_to_names = cfgB.sid_to_names)
    (hbus : cfgA.busid_to_bits = cfgB.busid_to_bits)
    (hts : cfgA.ts_sec = cfgB.ts_sec)
    (hmaxA : cfgA.tmax = none) (hmaxB : cfgB.tmax = none)
    (st1 st2 : EvState) (l : VcdLine)
    (hcv : st1.cur_vals = st2.cur_vals)
    (htk : st1.cur_time_ticks = st2.cur_time_ticks)
    (hch : st1.changed = st2.changed)
    (hs1 : st1.stop = false) (hs2 : st2.stop = false) :
    (evStep cfgA st1 l).cur_vals = (evStep cfgB st2 l).cur_vals ∧
    (evStep cfgA st1 l).cur_time_ticks = (evStep cfgB st2 l).cur_time_ticks ∧
    (evStep cfgA st1 l).changed = (evStep cfgB st2 l).changed ∧
    (evStep cfgA st1 l).stop = false ∧ (evStep cfgB st2 l).stop = false := by
  match l with
  | .timeMark t =>
    have hfr : ∀ (cfg : EvConfig) (st : EvState), cfg.tmax = none →
        st.stop = false →
        (flush_if_needed cfg st).1.cur_vals = st.cur_vals ∧
        (flush_if_needed cfg st).1.cur_time_ticks = st.cur_time_ticks ∧
        ((flush_if_needed cfg st).1.changed =
          (st.changed && decide (st.cur_time_ticks = none))) ∧
        (flush_if_needed cfg st).2 = false ∧
        (flush_if_needed cfg st).1.stop = false := by
      intro cfg st hmax hstop
      rcases h : st.cur_time_ticks with _ | tk
      · rcases hc : st.changed <;> simp [flush_if_needed, h, hc, hstop]
      · rcases hc : st.changed <;>
          by_cases hbm : belowMin cfg.tmin ((tk : ℚ) * cfg.ts_sec) = true <;>
            simp [flush_if_needed, h, hc, hbm, hstop, aboveMax, hmax]
    obtain ⟨a1, a2, a3, a4, a5⟩ := hfr cfgA st1 hmaxA hs1
    obtain ⟨b1, b2, b3, b4, b5⟩ := hfr cfgB st2 hmaxB hs2
    simp only [evStep, hs1, hs2, Bool.false_eq_true, if_false, a4, b4]
    refine ⟨by rw [a1, b1, hcv], by simp, ?_, by simpa using a5, by simpa using b5⟩
    simp only [a3, b3, hch, htk, hts]
  | .scalarChange v sid =>
    simp only [evStep, hs1, hs2, Bool.false_eq_true, if_false, hsid]
    rcases cfgB.sid_to_names.lookup sid with _ | names
    · simp [hcv, htk, hch, hs1, hs2]
    · simp [hcv, htk, hch, hs1, hs2]
  | .vectorChange bits sid =>
    simp only [evStep, hs1, hs2, Bool.false_eq_true, if_false, hbus]
    rcases cfgB.busid_to_bits.lookup sid with _ | bl
    · simp [hcv, htk, hch, hs1, hs2]
    · simp [hcv, htk, hch, hs1, hs2]
  | .other =>
    simp only [evStep, hs1, hs2, Bool.false_eq_true, if_false]
    simp [hcv, htk, hch, hs1, hs2]

lemma foldl_tmin_indep (cfgA cfgB : EvConfig)
    (hsid : cfgA.sid_to_names = cfgB.sid_to_names)
    (hbus : cfgA.busid_to_bits = cfgB.busid_to_bits)
    (hts : cfgA.ts_sec = cfgB.ts_sec)
    (hmaxA : cfgA.tmax = none) (hmaxB : cfgB.tmax = none)
    (body : List VcdLine) : ∀ (st1 st2 : EvState),
      st1.cur_vals = st2.cur_vals →
      st1.cur_time_ticks = st2.cur_time_ticks →
      st1.changed = st2.changed → st1.stop = false → st2.stop = false →
      (body.foldl (evStep cfgA) st1).cur_vals =
        (body.foldl (evStep cfgB) st2).cur_vals ∧
      (body.foldl (evStep cfgA) st1).stop = false ∧
      (body.foldl (evStep cfgB) st2).stop = false := by
  induction body with
  | nil => intro st1 st2 hcv htk hch hs1 hs2; exact ⟨hcv, hs1, hs2⟩
  | cons l rest ih =>
    intro st1 st2 hcv htk hch hs1 hs2
    obtain ⟨c1, c2, c3, c4, c5⟩ :=
      evStep_tmin_indep cfgA cfgB hsid hbus hts hmaxA hmaxB st1 st2 l
        hcv htk hch hs1 hs2
    exact ih _ _ c1 c2 c3 c4 c5

/-- C6: with a lower bound `tmin` set, a flush at a time strictly below
`tmin` silently drops the row (only the pending-change flag is reset,
`cur_vals` and the emitted rows are untouched, and the run does not stop);
and, independently of `tmin`, every value update is still applied — the
final value state of an event-mode run does not depend on `tmin` at all
(when no upper bound cuts the run short), so the first row at or after
`tmin` reflects all earlier changes. -/
theorem claim6_tmin_drop (cfg : EvConfig) (m : ℚ) (hmin : cfg.tmin = some m) :
    (∀ (st : EvState) (tk : Nat), st.cur_time_ticks = some tk →
      st.changed = true → (tk : ℚ) * cfg.ts_sec < m →
      flush_if_needed cfg st = ({st with changed := false}, false)) ∧
    (cfg.tmax = none → ∀ body : List VcdLine,
      (runEvents cfg body).cur_vals =
        (runEvents {cfg with tmin := none} body).cur_vals) := by
  constructor
  · intro st tk htk hch hlt
    have hbm : belowMin cfg.tmin ((tk : ℚ) * cfg.ts_sec) = true := by
      simp [belowMin, hmin, hlt]
    simp [flush_if_needed, htk, hch, hbm]
  · intro hmax body
    rw [runEvents_cur_vals, runEvents_cur_vals]
    exact (foldl_tmin_indep cfg {cfg with tmin := none} rfl rfl rfl hmax hmax
      body initEvState initEvState rfl rfl rfl rfl rfl).1

/-- Witness for C6: a pending change at time 0 with `tmin = 2` is silently
dropped — the flag is reset, nothing is written, the run continues. -/
theorem claim6_witness :
    flush_if_needed c6Cfg c6St = ({c6St with changed := false}, false) :=
  (claim6_tmin_drop c6Cfg 2 rfl).1 c6St 0 rfl rfl (by norm_num)

lemma emitLoop_go (step : ℚ) (hstep : 0 < step) (tmax : Option ℚ)
    (sv : List Char) (t_to next : ℚ)
    (h : next < t_to ∧ passTmax tmax next = true) :
    emitLoop step hstep tmax sv t_to next =
      ((next, sv) :: (emitLoop step hstep tmax sv t_to (next + step)).1,
        (emitLoop step hstep tmax sv t_to (next + step)).2) := by
  rw [emitLoop]
  rw [dif_pos h]

lemma emitLoop_stop (step : ℚ) (hstep : 0 < step) (tmax : Option ℚ)
    (sv : List Char) (t_to next : ℚ)
    (h : ¬(next < t_to ∧ passTmax tmax next = true)) :
    emitLoop step hstep tmax sv t_to next = ([], next) := by
  rw [emitLoop]
  rw [dif_neg h]

lemma emitLoop_measure_succ (step : ℚ) (hstep : 0 < step) (t_to next : ℚ)
    (n : ℕ) (hlt : next < t_to)
    (hn : (⌈(t_to - next) / step⌉).toNat = n + 1) :
    (⌈(t_to - (next + step)) / step⌉).toNat = n := by
  have hq : (t_to - (next + step)) / step = (t_to - next) / step - 1 := by
    field_simp
    ring
  have hc : ⌈(t_to - (next + step)) / step⌉ = ⌈(t_to - next) / step⌉ - 1 := by
    rw [hq, Int.ceil_sub_one]
  omega

lemma emitLoop_spec (step : ℚ) (hstep : 0 < step) (tmax : Option ℚ)
    (sv : List Char) (t_to : ℚ) : ∀ (n : ℕ) (next : ℚ),
    (⌈(t_to - next) / step⌉).toNat = n →
    (∀ r ∈ (emitLoop step hstep tmax sv t_to next).1,
      ∃ k : ℕ, r.1 = next + k * step) ∧
    (∃ m : ℕ, (emitLoop step hstep tmax sv t_to next).2 = next + m * step) := by
  intro n
  induction n with
  | zero =>
    intro next hn
    have hstopc : ¬(next < t_to ∧ passTmax tmax next = true) := by
      rintro ⟨hlt, _⟩
      have h1 : (0 : ℚ) < (t_to - next) / step := div_pos (by linarith) hstep
      have h2 : (1 : ℤ) ≤ ⌈(t_to - next) / step⌉ := by
        exact_mod_cast Int.ceil_pos.mpr h1
      omega
    rw [emitLoop_stop step hstep tmax sv t_to next hstopc]
    exact ⟨by simp, 0, by simp⟩
  | succ n ih =>
    intro next hn
    by_cases hc : next < t_to ∧ passTmax tmax next = true
    · have hnext := ih (next + step)
        (emitLoop_measure_succ step hstep t_to next n hc.1 hn)
      rw [emitLoop_go step hstep tmax sv t_to next hc]
      obtain ⟨hrows, m, hm⟩ := hnext
      refine ⟨?_, m + 1, ?_⟩
      · intro r hr
        rcases List.mem_cons.mp hr with h1 | h2
        · exact ⟨0, by simp [h1]⟩
        · obtain ⟨k, hk⟩ := hrows r h2
          exact ⟨k + 1, by rw [hk]; push_cast; ring⟩
      · rw [hm]
        push_cast
        ring
    · rw [emitLoop_stop step hstep tmax sv t_to next hc]
      exact ⟨by simp, 0, by simp⟩

lemma emitLoop_grid (step : ℚ) (hstep : 0 < step) (tmax : Option ℚ)
    (sv : List Char) (t_to next : ℚ) :
    (∀ r ∈ (emitLoop step hstep tmax sv t_to next).1,
      ∃ k : ℕ, r.1 = next + k * step) ∧
    (∃ m : ℕ, (emitLoop step hstep tmax sv t_to next).2 = next + m * step) :=
  emitLoop_spec step hstep tmax sv t_to _ next rfl

lemma emit_between_phase (cfg : UniConfig) (hmax : cfg.tmax = none) (A : ℚ)
    (sv : List Char) (next0 : Option ℚ) (t_from t_to : ℚ)
    (hn : (next0 = none ∧ anchorOf cfg.tmin t_from = A) ∨
      ∃ k : ℕ, next0 = some (A + k * cfg.step)) :
    (∀ r ∈ (emit_uniform_between cfg sv next0 t_from t_to).1,
      ∃ j : ℕ, r.1 = A + j * cfg.step) ∧
    (∃ m : ℕ, (emit_uniform_between cfg sv next0 t_from t_to).2 =
      some (A + m * cfg.step)) := by
  unfold emit_uniform_between
  simp only [hmax, aboveMax, Bool.false_eq_true, if_false]
  rcases hn with ⟨h0, hA⟩ | ⟨k, hk⟩
  · subst h0
    simp only []
    rw [hA]
    obtain ⟨hrows, m, hm⟩ :=
      emitLoop_grid cfg.step cfg.hstep none sv t_to A
    exact ⟨hrows, m, by rw [hm]⟩
  · subst hk
    simp only []
    obtain ⟨hrows, m, hm⟩ :=
      emitLoop_grid cfg.step cfg.hstep none sv t_to (A + k * cfg.step)
    refine ⟨?_, k + m, ?_⟩
    · intro r hr
      obtain ⟨j, hj⟩ := hrows r hr
      exact ⟨k + j, by rw [hj]; push_cast; ring⟩
    · rw [hm]
      push_cast
      ring_nf

lemma uniStep_phase (cfg : UniConfig) (hmax : cfg.tmax = none) (A : ℚ)
    (st : UniState) (l : VcdLine) (h : uniPhase cfg A st) :
    uniPhase cfg A (uniStep cfg st l) := by
  match l with
  | .timeMark t =>
    rcases h with ⟨l0, hlast, hA, hnext, hrows⟩ | ⟨⟨k, hk⟩, hrows⟩
    · simp only [uniStep, hlast]
      obtain ⟨hr, m, hm⟩ := emit_between_phase cfg hmax A
        (cfg.signals.map st.cur_vals) st.next_sample l0 ((t : ℚ) * cfg.ts_sec)
        (Or.inl ⟨hnext, hA⟩)
      right
      refine ⟨⟨m, by simpa using hm⟩, ?_⟩
      intro r hrm
      simp only [hrows, List.nil_append] at hrm ⊢
      exact hr r hrm
    · rcases hlast : st.last_time_sec with _ | l0
      · simp only [uniStep, hlast]
        exact Or.inr ⟨⟨k, hk⟩, hrows⟩
      · simp only [uniStep, hlast]
        obtain ⟨hr, m, hm⟩ := emit_between_phase cfg hmax A
          (cfg.signals.map st.cur_vals) st.next_sample l0 ((t : ℚ) * cfg.ts_sec)
          (Or.inr ⟨k, hk⟩)
        right
        refine ⟨⟨m, by simpa using hm⟩, ?_⟩
        intro r hrm
        rcases List.mem_append.mp hrm with h1 | h2
        · exact hrows r h1
        · exact hr r h2
  | .scalarChange v sid =>
    rcases hlook : cfg.sid_to_names.lookup sid with _ | names
    · simpa only [uniStep, hlook] using h
    · simp only [uniStep, hlook]
      rcases h with ⟨l0, hlast, hA, hnext, hrows⟩ | ⟨hk, hrows⟩
      · exact Or.inl ⟨l0, hlast, hA, hnext, hrows⟩
      · exact Or.inr ⟨hk, hrows⟩
  | .vectorChange bits sid =>
    rcases hlook : cfg.busid_to_bits.lookup sid with _ | bl
    · simpa only [uniStep, hlook] using h
    · simp only [uniStep, hlook]
      rcases h with ⟨l0, hlast, hA, hnext, hrows⟩ | ⟨hk, hrows⟩
      · exact Or.inl ⟨l0, hlast, hA, hnext, hrows⟩
      · exact Or.inr ⟨hk, hrows⟩
  | .other => exact h

lemma foldl_phase (cfg : UniConfig) (hmax : cfg.tmax = none) (A : ℚ)
    (body : List VcdLine) : ∀ (st : UniState), uniPhase cfg A st →
      uniPhase cfg A (body.foldl (uniStep cfg) st) := by
  induction body with
  | nil => intro st h; exact h
  | cons l rest ih =>
    intro st h
    exact ih _ (uniStep_phase cfg hmax A st l h)

lemma foldl_from_start (cfg : UniConfig) (hmax : cfg.tmax = none)
    (body : List VcdLine) : ∀ (st : UniState),
    st.last_time_sec = none → st.next_sample = none → st.rows = [] →
    (match firstMark body with
     | none =>
       (body.foldl (uniStep cfg) st).last_time_sec = none ∧
       (body.foldl (uniStep cfg) st).rows = []
     | some t0 =>
       uniPhase cfg (anchorOf cfg.tmin ((t0 : ℚ) * cfg.ts_sec))
         (body.foldl (uniStep cfg) st)) := by
  induction body with
  | nil =>
    intro st hl hn hr
    exact ⟨hl, hr⟩
  | cons l rest ih =>
    intro st hl hn hr
    match l with
    | .timeMark t =>
      rw [show firstMark (VcdLine.timeMark t :: rest) = some t from rfl]
      refine foldl_phase cfg hmax _ rest _ ?_
      left
      refine ⟨(t : ℚ) * cfg.ts_sec, ?_, rfl, ?_, ?_⟩ <;>
        simp [uniStep, hl, hn, hr]
    | .scalarChange v sid =>
      have h' : (uniStep cfg st (.scalarChange v sid)).last_time_sec = none ∧
          (uniStep cfg st (.scalarChange v sid)).next_sample = none ∧
          (uniStep cfg st (.scalarChange v sid)).rows = [] := by
        rcases hlook : cfg.sid_to_names.lookup sid with _ | names <;>
          simp only [uniStep, hlook] <;> exact ⟨hl, hn, hr⟩
      exact ih _ h'.1 h'.2.1 h'.2.2
    | .vectorChange bits sid =>
      have h' : (uniStep cfg st (.vectorChange bits sid)).last_time_sec = none ∧
          (uniStep cfg st (.vectorChange bits sid)).next_sample = none ∧
          (uniStep cfg st (.vectorChange bits sid)).rows = [] := by
        rcases hlook : cfg.busid_to_bits.lookup sid with _ | bl <;>
          simp only [uniStep, hlook] <;> exact ⟨hl, hn, hr⟩
      exact ih _ h'.1 h'.2.1 h'.2.2
    | .other => exact ih _ hl hn hr

lemma emit_between_aligned (cfg : UniConfig) (A : ℚ) (sv : List Char)
    (next0 : Option ℚ) (t_from t_to : ℚ)
    (hn : ∃ k : ℕ, next0 = some (A + k * cfg.step)) :
    (∀ r ∈ (emit_uniform_between cfg sv next0 t_from t_to).1,
      ∃ j : ℕ, r.1 = A + j * cfg.step) ∧
    ∃ m : ℕ, (emit_uniform_between cfg sv next0 t_from t_to).2 =
      some (A + m * cfg.step) := by
  obtain ⟨k, hk⟩ := hn
  subst hk
  unfold emit_uniform_between
  by_cases hg : aboveMax cfg.tmax t_from = true
  · rw [if_pos hg]
    exact ⟨by simp, k, rfl⟩
  · rw [if_neg hg]
    simp only []
    obtain ⟨hrows, m, hm⟩ :=
      emitLoop_grid cfg.step cfg.hstep cfg.tmax sv t_to (A + k * cfg.step)
    refine ⟨fun r hr => ?_, k + m, ?_⟩
    · obtain ⟨j, hj⟩ := hrows r hr
      exact ⟨k + j, by rw [hj]; push_cast; ring⟩
    · rw [hm]
      push_cast
      ring_nf

lemma emit_between_fresh (cfg : UniConfig) (sv : List Char) (t_from t_to : ℚ) :
    ((emit_uniform_between cfg sv none t_from t_to).1 = [] ∧
      (emit_uniform_between cfg sv none t_from t_to).2 = none) ∨
    ∃ A : ℚ, (∀ r ∈ (emit_uniform_between cfg sv none t_from t_to).1,
      ∃ j : ℕ, r.1 = A + j * cfg.step) ∧
      ∃ m : ℕ, (emit_uniform_between cfg sv none t_from t_to).2 =
        some (A + m * cfg.step) := by
  unfold emit_uniform_between
  by_cases hg : aboveMax cfg.tmax t_from = true
  · left
    rw [if_pos hg]
    exact ⟨rfl, rfl⟩
  · right
    rw [if_neg hg]
    simp only []
    refine ⟨anchorOf cfg.tmin t_from, ?_⟩
    obtain ⟨hrows, m, hm⟩ := emitLoop_grid cfg.step cfg.hstep cfg.tmax sv t_to
      (anchorOf cfg.tmin t_from)
    exact ⟨hrows, m, by rw [hm]⟩

lemma uniStep_anchored (cfg : UniConfig) (st : UniState) (l : VcdLine)
    (h : uniAnchored cfg st) : uniAnchored cfg (uniStep cfg st l) := by
  match l with
  | .timeMark t =>
    rcases hlast : st.last_time_sec with _ | l0
    · simpa only [uniStep, hlast] using h
    · simp only [uniStep, hlast]
      rcases h with ⟨hn, hr⟩ | ⟨A, ⟨k, hk⟩, hrows⟩
      · rw [hn]
        rcases emit_between_fresh cfg (cfg.signals.map st.cur_vals) l0
          ((t : ℚ) * cfg.ts_sec) with ⟨he1, he2⟩ | ⟨A, hrows2, m, hm⟩
        · left
          constructor
          · simpa using he2
          · simp [hr, he1]
        · right
          refine ⟨A, ⟨m, by simpa using hm⟩, ?_⟩
          intro r hrm
          rcases List.mem_append.mp hrm with h1 | h2
          · rw [hr] at h1
            exact absurd h1 (List.not_mem_nil r)
          · exact hrows2 r h2
      · obtain ⟨hrows2, m, hm⟩ := emit_between_aligned cfg A
          (cfg.signals.map st.cur_vals) st.next_sample l0
          ((t : ℚ) * cfg.ts_sec) ⟨k, hk⟩
        right
        refine ⟨A, ⟨m, by simpa using hm⟩, ?_⟩
        intro r hrm
        rcases List.mem_append.mp hrm with h1 | h2
        · exact hrows r h1
        · exact hrows2 r h2
  | .scalarChange v sid =>
    rcases hlook : cfg.sid_to_names.lookup sid with _ | names
    · simpa only [uniStep, hlook] using h
    · simp only [uniStep, hlook]
      rcases h with ⟨hn, hr⟩ | ⟨A, hk, hrows⟩
      · exact Or.inl ⟨hn, hr⟩
      · exact Or.inr ⟨A, hk, hrows⟩
  | .vectorChange bits sid =>
    rcases hlook : cfg.busid_to_bits.lookup sid with _ | bl
    · simpa only [uniStep, hlook] using h
    · simp only [uniStep, hlook]
      rcases h with ⟨hn, hr⟩ | ⟨A, hk, hrows⟩
      · exact Or.inl ⟨hn, hr⟩
      · exact Or.inr ⟨A, hk, hrows⟩
  | .other => exact h

lemma foldl_anchored (cfg : UniConfig) (body : List VcdLine) :
    ∀ (st : UniState), uniAnchored cfg st →
      uniAnchored cfg (body.foldl (uniStep cfg) st) := by
  induction body with
  | nil => intro st h; exact h
  | cons l rest ih =>
    intro st h
    exact ih _ (uniStep_anchored cfg st l h)

lemma runUniform_anchored (cfg : UniConfig) (body : List VcdLine) :
    uniAnchored cfg (runUniform cfg body) := by
  have H := foldl_anchored cfg body initUniState (Or.inl ⟨rfl, rfl⟩)
  rcases hlast : (body.foldl (uniStep cfg) initUniState).last_time_sec
    with _ | l0
  · simpa only [runUniform, hlast] using H
  · simp only [runUniform, hlast]
    rcases H with ⟨hn, hr⟩ | ⟨A, ⟨k, hk⟩, hrows⟩
    · rw [hn]
      rcases emit_between_fresh cfg
        (cfg.signals.map (body.foldl (uniStep cfg) initUniState).cur_vals) l0
        (match cfg.tmax with | some m => if l0 < m then m else l0 | none => l0)
        with ⟨he1, he2⟩ | ⟨A, hrows2, m, hm⟩
      · left
        exact ⟨by simpa using he2, by simp [hr, he1]⟩
      · right
        refine ⟨A, ⟨m, by simpa using hm⟩, ?_⟩
        intro r hrm
        rcases List.mem_append.mp (by simpa using hrm) with h1 | h2
        · rw [hr] at h1
          exact absurd h1 (List.not_mem_nil r)
        · exact hrows2 r h2
    · obtain ⟨hrows2, m, hm⟩ := emit_between_aligned cfg A
        (cfg.signals.map (body.foldl (uniStep cfg) initUniState).cur_vals)
        (body.foldl (uniStep cfg) initUniState).next_sample l0
        (match cfg.tmax with | some m => if l0 < m then m else l0 | none => l0)
        ⟨k, hk⟩
      right
      refine ⟨A, ⟨m, by simpa using hm⟩, ?_⟩
      intro r hrm
      rcases List.mem_append.mp (by simpa using hrm) with h1 | h2
      · exact hrows r h1
      · exact hrows2 r h2

/-- C4: (i) with step `S` over an interval `[0, 3S)` holding no value
changes and no time bounds, uniform-grid mode emits exactly three rows, at
times `0`, `S` and `2S`; (ii) with no upper bound, the grid is anchored at
the later of the first interval's start and the lower bound, and every
emitted row's time is that anchor plus a natural multiple of the step;
(iii) under arbitrary bounds there is still a single anchor — set once and
never re-anchored — whose grid carries every emitted row. -/
theorem claim4_uniform_grid :
    (∀ (S : ℚ) (hS : 0 < S), (runUniform (c4Cfg S hS) c4Body).rows =
      [(0, ['1']), (S, ['1']), (2 * S, ['1'])]) ∧
    (∀ (cfg : UniConfig) (body : List VcdLine), cfg.tmax = none →
      ∀ r ∈ (runUniform cfg body).rows, ∃ (t0 k : ℕ),
        firstMark body = some t0 ∧
        r.1 = anchorOf cfg.tmin ((t0 : ℚ) * cfg.ts_sec) + k * cfg.step) ∧
    (∀ (cfg : UniConfig) (body : List VcdLine), ∃ A : ℚ,
      ∀ r ∈ (runUniform cfg body).rows, ∃ k : ℕ, r.1 = A + k * cfg.step) := by
  refine ⟨?_, ?_, ?_⟩
  · intro S hS
    have l3 : emitLoop S hS none ['1'] (3 * S) (0 + S + S + S) =
        ([], 0 + S + S + S) := by
      refine emitLoop_stop S hS none ['1'] (3 * S) (0 + S + S + S) ?_
      rintro ⟨hlt, _⟩
      linarith
    have l2 : emitLoop S hS none ['1'] (3 * S) (0 + S + S) =
        ([(0 + S + S, ['1'])], 0 + S + S + S) := by
      rw [emitLoop_go S hS none ['1'] (3 * S) (0 + S + S) ⟨by linarith, rfl⟩, l3]
    have l1 : emitLoop S hS none ['1'] (3 * S) (0 + S) =
        ([(0 + S, ['1']), (0 + S + S, ['1'])], 0 + S + S + S) := by
      rw [emitLoop_go S hS none ['1'] (3 * S) (0 + S) ⟨by linarith, rfl⟩, l2]
    have l0 : emitLoop S hS none ['1'] (3 * S) 0 =
        ([(0, ['1']), (0 + S, ['1']), (0 + S + S, ['1'])], 0 + S + S + S) := by
      rw [emitLoop_go S hS none ['1'] (3 * S) 0 ⟨by linarith, rfl⟩, l1]
    have hstop : emitLoop S hS none ['1'] (3 * S) (0 + S + S + S) =
        ([], 0 + S + S + S) := l3
    simp only [runUniform, c4Body, c4Cfg, List.foldl_cons, List.foldl_nil,
      uniStep, initUniState, emit_uniform_between, aboveMax, anchorOf,
      Nat.cast_zero, Nat.cast_ofNat, zero_mul, List.map_cons, List.map_nil,
      List.nil_append, Bool.false_eq_true, if_false]
    rw [l0]
    simp only [List.nil_append]
    rw [hstop]
    norm_num
    ring
  · intro cfg body hmax r hr
    have H := foldl_from_start cfg hmax body initUniState rfl rfl rfl
    rcases hfm : firstMark body with _ | t0
    · rw [hfm] at H
      obtain ⟨hl, hrw⟩ := H
      simp only [runUniform, hl, hrw] at hr
      exact absurd hr (List.not_mem_nil r)
    · rw [hfm] at H
      refine ⟨t0, ?_⟩
      set A := anchorOf cfg.tmin ((t0 : ℚ) * cfg.ts_sec) with hA
      rcases hlast : (body.foldl (uniStep cfg) initUniState).last_time_sec
        with _ | lastv
      · simp only [runUniform, hlast] at hr
        rcases H with ⟨l0, hl0, _, _, _⟩ | ⟨_, hrows⟩
        · rw [hl0] at hlast
          exact absurd hlast (by simp)
        · obtain ⟨k, hk⟩ := hrows r hr
          exact ⟨k, rfl, hk⟩
      · simp only [runUniform, hlast, hmax] at hr
        rcases H with ⟨l0, hl0, hA0, hnext, hrows⟩ | ⟨⟨k, hk⟩, hrows⟩
        · have hl0v : l0 = lastv := by
            rw [hl0] at hlast
            exact Option.some.inj hlast
          obtain ⟨hremit, m, hm⟩ := emit_between_phase cfg hmax A
            (cfg.signals.map (body.foldl (uniStep cfg) initUniState).cur_vals)
            (body.foldl (uniStep cfg) initUniState).next_sample lastv lastv
            (Or.inl ⟨hnext, by rw [← hl0v]; exact hA0⟩)
          simp only [hrows, List.nil_append] at hr
          obtain ⟨j, hj⟩ := hremit r hr
          exact ⟨j, rfl, hj⟩
        · obtain ⟨hremit, m, hm⟩ := emit_between_phase cfg hmax A
            (cfg.signals.map (body.foldl (uniStep cfg) initUniState).cur_vals)
            (body.foldl (uniStep cfg) initUniState).next_sample lastv lastv
            (Or.inr ⟨k, hk⟩)
          rcases List.mem_append.mp hr with h1 | h2
          · obtain ⟨j, hj⟩ := hrows r h1
            exact ⟨j, rfl, hj⟩
          · obtain ⟨j, hj⟩ := hremit r h2
            exact ⟨j, rfl, hj⟩
  · intro cfg body
    rcases runUniform_anchored cfg body with ⟨hn, hr⟩ | ⟨A, _, hrows⟩
    · exact ⟨0, fun r hrm => absurd (hr ▸ hrm) (List.not_mem_nil r)⟩
    · exact ⟨A, fun r hrm => hrows r hrm⟩

/-- Witness for C4: with step 1, ticks 0 and 3 at scale 1, three rows come
out, at times 0, 1 and 2. -/
theorem claim4_witness :
    (runUniform (c4Cfg 1 one_pos) c4Body).rows =
      [(0, ['1']), ((1 : ℚ), ['1']), (2 * (1 : ℚ), ['1'])] :=
  claim4_uniform_grid.1 1 one_pos

/-- C10: an empty `wanted_signals` list is falsy, exactly like `None`, so
the conversion falls through to the default all-scalars selection: the
selection phase and both full conversion modes behave identically for
`some []` and `none`. -/
theorem claim10_empty_wanted (decls : List VarDecl) (body : List VcdLine)
    (tmin tmax : Option ℚ) (ig : Bool) (ts : ℚ) (step : {q : ℚ // 0 < q})
    (scal : List (String × String)) (bus : List (String × BusDef)) :
    selectColumns scal bus (some []) ig = selectColumns scal bus none ig ∧
    vcd_to_csv_event decls body (some []) tmin tmax ig ts =
      vcd_to_csv_event decls body none tmin tmax ig ts ∧
    vcd_to_csv_uniform decls body (some []) tmin tmax ig ts step =
      vcd_to_csv_uniform decls body none tmin tmax ig ts step :=
  ⟨rfl, rfl, rfl⟩

end VcdCsv
